import Mathlib

/-!
Verification of the incremental-backup engine in src/index.js against its
specification. The JavaScript is embedded shallowly: the retry wrapper, the
metadata (sidecar) handling, the scan/filter loop and the orchestrator of
`main` become pure Lean functions over explicit inputs (the walk output as a
list of file records, the sidecar state on disk, the two clock samples, and
the CLI flags). Machine timestamps are modelled as natural numbers of
milliseconds since the epoch, matching `Date.getTime()` on the valid dates the
program itself writes.
-/

namespace BackupFolder

/-- A regular file yielded by `walk` (index.js:92-104): the `lstat` result
with its absolute `path` attached, of which the program reads `path`,
`size` and `mtimeMs`. -/
structure FileRec where
  path : String
  size : Nat
  mtimeMs : Nat
deriving DecidableEq

/-- The object handed to the queued `upload` function (index.js:180, 242):
either a walked file record or the synthetic `\x7bpath, size\x7d` record for the
sidecar. Only `path` and `size` are read by the scheduler-facing code. -/
structure UploadTask where
  srcPath : String
  size : Nat
deriving DecidableEq

/-- The parsed shape of the `.backup-folder.json` sidecar contents that the
program itself reads and writes (index.js:156-158, 228-232): an empty object
`\x7b\x7d` on a first run, or an object with `uploadStartTime`/`uploadEndTime`
(ISO dates, modelled by their millisecond values) and an optional nested
`lastMetaData` object. -/
inductive MetaData where
  | emptyObj : MetaData
  | noHistory (uploadStartTime uploadEndTime : Nat) : MetaData
  | withHistory (uploadStartTime uploadEndTime : Nat) (lastMetaData : MetaData) : MetaData
deriving DecidableEq

/-- The `uploadStartTime` field of a parsed metadata object, `none` when the
field is missing (the falsy case of `!metadata.uploadStartTime`,
index.js:158). -/
def uploadStartTimeOf : MetaData → Option Nat
  | .emptyObj => none
  | .noHistory s _ => some s
  | .withHistory s _ _ => some s

/-- `delete metadata.lastMetaData` (index.js:227): the previous metadata
object with its own history field removed. -/
def deleteLastMetaData : MetaData → MetaData
  | .emptyObj => .emptyObj
  | .noHistory s e => .noHistory s e
  | .withHistory s e _ => .noHistory s e

/-- The reassignment at index.js:228-232: the new metadata object nests the
old one (after `delete metadata.lastMetaData`) under `lastMetaData`. -/
def nextMeta (metadata : MetaData) (uploadStartTime uploadEndTime : Nat) : MetaData :=
  .withHistory uploadStartTime uploadEndTime (deleteLastMetaData metadata)

/-- Number of run records in the nested `lastMetaData` chain of a metadata
object (the empty object records no run). -/
def historyDepth : MetaData → Nat
  | .emptyObj => 0
  | .noHistory _ _ => 1
  | .withHistory _ _ m => 1 + historyDepth m

/-- The sidecar metadata after a sequence of completed (non-print) runs,
each given by its start and end timestamps, starting from an initial on-disk
object: every run rewrites the sidecar with `nextMeta` (index.js:227-237). -/
def runSequence (metadata : MetaData) : List (Nat × Nat) → MetaData
  | [] => metadata
  | (s, e) :: rest => runSequence (nextMeta metadata s e) rest

/-- The state of the sidecar file on disk when a run starts: absent
(`ENOENT`), present but not valid JSON, or present with a parsed object. -/
inductive SidecarState where
  | absent
  | malformed
  | present (metadata : MetaData)
deriving DecidableEq

/-- The fatal ways `main` exits before scanning (`process.exit(1)` at
index.js:160 and 171). -/
inductive RunError where
  | metadataError
deriving DecidableEq

/-- Loading the sidecar (index.js:153-173): an absent file is ignored and
leaves `metadata = \x7b\x7d`; a read or parse failure logs and exits 1; a parsed
object without a truthy `uploadStartTime` logs and exits 1. -/
def loadMetadata : SidecarState → Except RunError MetaData
  | .absent => .ok .emptyObj
  | .malformed => .error .metadataError
  | .present m =>
    match uploadStartTimeOf m with
    | none => .error .metadataError
    | some _ => .ok m

/-- `new Date(metadata.uploadStartTime || 0).getTime()` (index.js:174): the
watermark is the prior run's start time, or epoch zero without one. -/
def lastUploadTimeMs (m : MetaData) : Nat :=
  (uploadStartTimeOf m).getD 0

/-- `path.join` restricted to the non-Windows shapes the program builds
(no normalization is ever needed for them). -/
def pathJoin (a b : String) : String := a ++ "/" ++ b

/-- `path.join(source, ".backup-folder.json")` (index.js:153). -/
def metadataFilePathOf (source : String) : String :=
  pathJoin source ".backup-folder.json"

/-- Running totals and submitted tasks accumulated by the walk loop
(index.js:197-214). -/
structure ScanState where
  totalFiles : Nat
  totalSize : Nat
  tasks : List UploadTask
deriving DecidableEq

/-- `upload(file)` submits the file record itself; the scheduler-visible task
is its path and size. -/
def mkTask (f : FileRec) : UploadTask := ⟨f.path, f.size⟩

/-- One iteration of the walk loop (index.js:198-214): the sidecar path is
skipped entirely; any other file is tallied and, when `mtimeMs` is at or
above the watermark, submitted to the queue. -/
def scanStep (metadataFilePath : String) (lastUploadTimeMs : Nat)
    (st : ScanState) (file : FileRec) : ScanState :=
  if file.path = metadataFilePath then st
  else
    { totalFiles := st.totalFiles + 1
      totalSize := st.totalSize + file.size
      tasks :=
        if lastUploadTimeMs ≤ file.mtimeMs then st.tasks ++ [mkTask file]
        else st.tasks }

/-- The whole scan phase over the walk output. -/
def scanFold (metadataFilePath : String) (lastUploadTimeMs : Nat)
    (files : List FileRec) : ScanState :=
  files.foldl (scanStep metadataFilePath lastUploadTimeMs) ⟨0, 0, []⟩

/-- The Boolean eligibility test a walked file must pass for a task to be
submitted: not the sidecar path, and modified at or after the watermark. -/
def eligibleB (metadataFilePath : String) (lastUploadTimeMs : Nat)
    (f : FileRec) : Bool :=
  (f.path != metadataFilePath) && (decide (lastUploadTimeMs ≤ f.mtimeMs))

/-- Stands in for `JSON.stringify(metadata, null, tab).length`
(index.js:235). No property below depends on the byte count itself — it only
feeds the sidecar task's `size` field and the byte totals — so the model uses
a fixed length per nested record. -/
def metadataFileContentsLength : MetaData → Nat
  | .emptyObj => 2
  | .noHistory _ _ => 100
  | .withHistory _ _ m => 100 + metadataFileContentsLength m

/-- The observable outcome of a run of `main` (index.js:148-255) that loads
its metadata successfully. `tasks` lists every task handed to the queue in
submission order (the sidecar task is submitted last, index.js:242-245).
`uploadLogLines` counts the per-task progress lines of index.js:190-192,
`objectStorePuts` the tasks that reach the `storageBucket.upload` call of
index.js:186 (zero in print mode, one first attempt per task otherwise),
and `writtenMetadata` what `fs.writeFile` put in the sidecar (`none` when the
write is skipped in print mode, index.js:236-238). -/
structure RunOutput where
  tasks : List UploadTask
  totalFiles : Nat
  totalSize : Nat
  uploadLogLines : Nat
  objectStorePuts : Nat
  writtenMetadata : Option MetaData
  watermark : Nat
deriving DecidableEq

/-- The orchestrator `main` (index.js:148-255): load the sidecar (aborting on
a metadata error), compute the watermark, capture the run's start time, scan
and submit, then rewrite and submit the sidecar. `uploadStartTime` and
`uploadEndTime` are the clock samples of index.js:175 and 226; `onlyPrint`
and `quiet` are the CLI flags. -/
def main (source : String) (files : List FileRec) (sidecar : SidecarState)
    (uploadStartTime uploadEndTime : Nat) (onlyPrint quiet : Bool) :
    Except RunError RunOutput :=
  let metadataFilePath := metadataFilePathOf source
  match loadMetadata sidecar with
  | .error e => .error e
  | .ok metadata =>
    let wm := lastUploadTimeMs metadata
    let st := scanFold metadataFilePath wm files
    let newMetadata := nextMeta metadata uploadStartTime uploadEndTime
    let len := metadataFileContentsLength newMetadata
    let allTasks := st.tasks ++ [⟨metadataFilePath, len⟩]
    .ok
      { tasks := allTasks
        totalFiles := st.totalFiles + 1
        totalSize := st.totalSize + len
        uploadLogLines := if quiet then 0 else allTasks.length
        objectStorePuts := if onlyPrint then 0 else allTasks.length
        writtenMetadata := if onlyPrint then none else some newMetadata
        watermark := wm }

/-- The scan-phase tasks of a run result (every submitted task except the
final sidecar task), empty on an aborted run. -/
def dataTasksOf : Except RunError RunOutput → List UploadTask
  | .error _ => []
  | .ok out => out.tasks.dropLast

/-- What one call of `withRetries` observably did: the value returned or the
error finally thrown (`throw lastError`, where `lastError` can still be the
initial `null` if the budget is zero), how many times `fn` was invoked, and
the error messages logged by the catch blocks, in order (index.js:76-90). -/
structure RetryTrace (ε α : Type) where
  result : Except (Option ε) α
  calls : Nat
  logged : List ε

/-- The `while (actualRetries < retries)` loop of `withRetries`
(index.js:79-88), with the outcome of the i-th invocation of `fn` given by
`f i`: `remaining` counts the loop iterations still allowed, `idx` the
invocations already made, and `last` the `lastError` variable. -/
def withRetriesGo (f : Nat → Except ε α) :
    (idx remaining : Nat) → (last : Option ε) → RetryTrace ε α
  | _, 0, last => ⟨.error last, 0, []⟩
  | idx, r + 1, _ =>
    match f idx with
    | .ok a => ⟨.ok a, 1, []⟩
    | .error e =>
      let t := withRetriesGo f (idx + 1) r (some e)
      ⟨t.result, t.calls + 1, e :: t.logged⟩

/-- `withRetries(fn, \x7bretries\x7d)` (index.js:76-90), with `fn`'s successive
outcomes supplied by `f`. The JavaScript default for `retries` is 3. -/
def withRetries (f : Nat → Except ε α) (retries : Nat) : RetryTrace ε α :=
  withRetriesGo f 0 retries none

/-- Modelled from the spec: the Upload Scheduler is the external
`async-parallel-queue` package (a dependency, not under src/). Spec §4.3
and §5: every submitted task runs to completion — success (`none`) or, after
its retry budget, permanent failure (`some message`) — and the drain
(`queue.waitIdle`, index.js:221/247) observes every task's outcome, letting
in-flight work finish, and surfaces the first permanent failure to the
caller. Returns (number of tasks that ran to completion, propagated error). -/
def drainGo : List (Option String) → Nat × Option String
  | [] => (0, none)
  | outcome :: rest =>
    let t := drainGo rest
    (t.1 + 1, match outcome with | some e => some e | none => t.2)

/-- The process exit code once the queue has drained: an error propagating
out of the drain rejects `main()`'s promise, which is caught and turned into
`process.exit(1)` (index.js:257-262); otherwise the run exits 0. -/
def drainExitCode (outcomes : List (Option String)) : Nat :=
  match (drainGo outcomes).2 with
  | some _ => 1
  | none => 0

/-! ## Properties of the scan phase -/

theorem scanFold_go_tasks (mp : String) (wm : Nat) (files : List FileRec) :
    ∀ st : ScanState,
      (files.foldl (scanStep mp wm) st).tasks =
        st.tasks ++ (files.filter (eligibleB mp wm)).map mkTask := by
  induction files with
  | nil => intro st; simp
  | cons f rest ih =>
    intro st
    simp only [List.foldl_cons, List.filter_cons]
    by_cases hp : f.path = mp
    · have he : eligibleB mp wm f = false := by simp [eligibleB, hp]
      simp [scanStep, hp, he, ih]
    · by_cases hm : wm ≤ f.mtimeMs
      · have he : eligibleB mp wm f = true := by simp [eligibleB, hp, hm]
        simp [scanStep, hp, hm, he, ih]
      · have he : eligibleB mp wm f = false := by simp [eligibleB, hp, hm]
        simp [scanStep, hp, hm, he, ih]

/-- The tasks submitted by the scan phase are exactly the eligible walked
files, in walk order. -/
theorem scanFold_tasks_eq (mp : String) (wm : Nat) (files : List FileRec) :
    (scanFold mp wm files).tasks = (files.filter (eligibleB mp wm)).map mkTask := by
  simpa using scanFold_go_tasks mp wm files ⟨0, 0, []⟩

theorem countP_path_of_nodup (f : FileRec) (q : FileRec → Bool) :
    ∀ files : List FileRec, f ∈ files → (files.map FileRec.path).Nodup →
      files.countP (fun g => (g.path == f.path) && q g) = if q f then 1 else 0 := by
  intro files
  induction files with
  | nil => intro hmem; cases hmem
  | cons g rest ih =>
    intro hmem hnodup
    simp only [List.map_cons, List.nodup_cons, List.mem_map] at hnodup
    rcases List.mem_cons.mp hmem with hfg | hfr
    · subst hfg
      have hzero : rest.countP (fun g => (g.path == f.path) && q g) = 0 := by
        refine List.countP_eq_zero.mpr ?_
        intro x hx
        have hxne : x.path ≠ f.path := fun hc => hnodup.1 ⟨x, hx, hc⟩
        simp [hxne]
      simp [List.countP_cons, hzero]
    · have hne : g.path ≠ f.path := by
        intro hc
        exact hnodup.1 ⟨f, hfr, hc.symm⟩
      have hgp : ((g.path == f.path) && q g) = false := by simp [hne]
      rw [List.countP_cons, ih hfr hnodup.2, hgp]
      simp

/-- C1: during the scan phase, every walked regular file that is not the
sidecar path and whose modification time is at or above the watermark has
exactly one UploadTask submitted for it, and every walked file below the
watermark has zero tasks submitted; with no prior metadata the watermark
loads as epoch zero, so every non-sidecar file gets a task. Walk output has
pairwise distinct paths (the filesystem yields each file once). -/
theorem scan_submits_exactly_eligible (source : String) (wm : Nat)
    (files : List FileRec) (f : FileRec) (hmem : f ∈ files)
    (hnodup : (files.map FileRec.path).Nodup) :
    ((scanFold (metadataFilePathOf source) wm files).tasks.countP
        (fun task => task.srcPath == f.path)) =
      (if f.path ≠ metadataFilePathOf source ∧ wm ≤ f.mtimeMs then 1 else 0) ∧
    (loadMetadata .absent = .ok .emptyObj ∧ lastUploadTimeMs .emptyObj = 0) ∧
    (f.path ≠ metadataFilePathOf source →
      ((scanFold (metadataFilePathOf source) 0 files).tasks.countP
        (fun task => task.srcPath == f.path)) = 1) := by
  have key : ∀ w : Nat,
      ((scanFold (metadataFilePathOf source) w files).tasks.countP
          (fun task => task.srcPath == f.path)) =
        if f.path ≠ metadataFilePathOf source ∧ w ≤ f.mtimeMs then 1 else 0 := by
    intro w
    rw [scanFold_tasks_eq, List.countP_map, List.countP_filter]
    have hpred :
        (fun g => ((fun task => task.srcPath == f.path) ∘ mkTask) g
            && eligibleB (metadataFilePathOf source) w g) =
          fun g => (g.path == f.path) && eligibleB (metadataFilePathOf source) w g := by
      funext g
      simp [mkTask, Function.comp]
    rw [hpred, countP_path_of_nodup f _ files hmem hnodup]
    by_cases h1 : f.path = metadataFilePathOf source
    · simp [eligibleB, h1]
    · by_cases h2 : w ≤ f.mtimeMs
      · simp [eligibleB, h1, h2]
      · simp [eligibleB, h1, h2]
  refine ⟨key wm, ⟨rfl, rfl⟩, ?_⟩
  intro hne
  rw [key 0]
  simp [hne]

/-- Witness for C1 at a concrete input: one ordinary file at or above the
watermark receives exactly one task. -/
theorem scan_submits_exactly_eligible_witness :
    ((scanFold (metadataFilePathOf "s") 5 [⟨"s/a", 7, 9⟩]).tasks.countP
        (fun task => task.srcPath == "s/a")) = 1 := by
  have h := (scan_submits_exactly_eligible "s" 5 [⟨"s/a", 7, 9⟩] ⟨"s/a", 7, 9⟩
    (by decide) (by decide)).1
  rw [h]
  decide

/-! ## Unfolding the orchestrator -/

/-- A run whose sidecar loads successfully produces exactly this output. -/
theorem main_eq_ok (source : String) (files : List FileRec) (sc : SidecarState)
    (t e : Nat) (op q : Bool) (md : MetaData)
    (hload : loadMetadata sc = .ok md) :
    main source files sc t e op q = .ok
      { tasks :=
          (scanFold (metadataFilePathOf source) (lastUploadTimeMs md) files).tasks
            ++ [⟨metadataFilePathOf source,
                  metadataFileContentsLength (nextMeta md t e)⟩]
        totalFiles :=
          (scanFold (metadataFilePathOf source) (lastUploadTimeMs md) files).totalFiles + 1
        totalSize :=
          (scanFold (metadataFilePathOf source) (lastUploadTimeMs md) files).totalSize
            + metadataFileContentsLength (nextMeta md t e)
        uploadLogLines :=
          if q then 0
          else (scanFold (metadataFilePathOf source) (lastUploadTimeMs md) files).tasks.length + 1
        objectStorePuts :=
          if op then 0
          else (scanFold (metadataFilePathOf source) (lastUploadTimeMs md) files).tasks.length + 1
        writtenMetadata := if op then none else some (nextMeta md t e)
        watermark := lastUploadTimeMs md } := by
  simp [main, hload]

/-- C2: the `uploadStartTime` persisted to the sidecar at the end of a run is
exactly the clock sample `t` captured at run start (index.js:175), before the
scan; assuming the clock did not run backwards since the previous run's start
(`hclock`), the new watermark is at or above the previous one. -/
theorem watermark_persisted_eq_run_start (source : String) (files : List FileRec)
    (sc : SidecarState) (t e : Nat) (q : Bool) (md : MetaData)
    (hload : loadMetadata sc = .ok md)
    (hclock : lastUploadTimeMs md ≤ t) :
    ∃ out, main source files sc t e false q = .ok out ∧
      out.writtenMetadata = some (nextMeta md t e) ∧
      uploadStartTimeOf (nextMeta md t e) = some t ∧
      lastUploadTimeMs md ≤ lastUploadTimeMs (nextMeta md t e) := by
  refine ⟨_, main_eq_ok source files sc t e false q md hload, ?_, rfl, ?_⟩
  · rfl
  · simpa [lastUploadTimeMs, nextMeta, uploadStartTimeOf] using hclock

/-- Witness for C2: a first run (absent sidecar, watermark 0) started at
time 5 persists watermark 5 ≥ 0. -/
theorem watermark_persisted_eq_run_start_witness :
    ∃ out, main "s" [] .absent 5 6 false false = .ok out ∧
      out.writtenMetadata = some (nextMeta .emptyObj 5 6) ∧
      uploadStartTimeOf (nextMeta .emptyObj 5 6) = some 5 ∧
      lastUploadTimeMs .emptyObj ≤ lastUploadTimeMs (nextMeta .emptyObj 5 6) :=
  watermark_persisted_eq_run_start "s" [] .absent 5 6 false .emptyObj (by rfl) (by decide)

/-- C5: in every run (whatever the flags), no task submitted by the scan
phase carries the sidecar path — the sidecar is skipped before the watermark
comparison ever sees it — and the final task of the run is the sidecar task,
submitted unconditionally after the new metadata is produced. -/
theorem sidecar_excluded_then_final_task (source : String) (files : List FileRec)
    (sc : SidecarState) (t e : Nat) (op q : Bool) (md : MetaData)
    (hload : loadMetadata sc = .ok md) :
    ∃ out, main source files sc t e op q = .ok out ∧
      (∀ task ∈ (scanFold (metadataFilePathOf source) (lastUploadTimeMs md) files).tasks,
        task.srcPath ≠ metadataFilePathOf source) ∧
      out.tasks =
        (scanFold (metadataFilePathOf source) (lastUploadTimeMs md) files).tasks
          ++ [⟨metadataFilePathOf source,
                metadataFileContentsLength (nextMeta md t e)⟩] := by
  refine ⟨_, main_eq_ok source files sc t e op q md hload, ?_, rfl⟩
  intro task htask
  rw [scanFold_tasks_eq] at htask
  rcases List.mem_map.mp htask with ⟨g, hg, hgt⟩
  rcases List.mem_filter.mp hg with ⟨-, he⟩
  have hne : g.path ≠ metadataFilePathOf source := by
    simp only [eligibleB, Bool.and_eq_true, bne_iff_ne, ne_eq] at he
    exact he.1
  rw [← hgt]
  exact hne

/-- Witness for C5: a run over one ordinary file submits a scan task that is
not the sidecar path, followed by the sidecar task. -/
theorem sidecar_excluded_then_final_task_witness :
    ∃ out, main "s" [⟨"s/a", 1, 5⟩] .absent 7 8 true false = .ok out ∧
      (∀ task ∈ (scanFold (metadataFilePathOf "s") (lastUploadTimeMs .emptyObj)
          [⟨"s/a", 1, 5⟩]).tasks,
        task.srcPath ≠ metadataFilePathOf "s") ∧
      out.tasks =
        (scanFold (metadataFilePathOf "s") (lastUploadTimeMs .emptyObj) [⟨"s/a", 1, 5⟩]).tasks
          ++ [⟨metadataFilePathOf "s",
                metadataFileContentsLength (nextMeta .emptyObj 7 8)⟩] :=
  sidecar_excluded_then_final_task "s" [⟨"s/a", 1, 5⟩] .absent 7 8 true false .emptyObj (by rfl)

/-- C6: an absent sidecar is not an error — the run proceeds with the
epoch-zero watermark — while a sidecar that is present but unparsable, or
parses without an `uploadStartTime` field, aborts the run with a metadata
error before any scanning or uploading happens (`process.exit(1)`,
index.js:158-172, so the result carries no run output at all). -/
theorem load_sidecar_absent_ok_malformed_fatal (source : String)
    (files : List FileRec) (t e : Nat) (op q : Bool) (m : MetaData)
    (hm : uploadStartTimeOf m = none) :
    (∃ out, main source files .absent t e op q = .ok out ∧ out.watermark = 0) ∧
    main source files .malformed t e op q = .error .metadataError ∧
    main source files (.present m) t e op q = .error .metadataError := by
  refine ⟨⟨_, main_eq_ok source files .absent t e op q .emptyObj rfl, rfl⟩, rfl, ?_⟩
  simp [main, loadMetadata, hm]

/-- Witness for C6 at concrete inputs: the empty parsed object `\x7b\x7d` has no
`uploadStartTime`, so a present-but-invalid sidecar aborts, while an absent
one yields watermark 0. -/
theorem load_sidecar_absent_ok_malformed_fatal_witness :
    (∃ out, main "s" [⟨"s/a", 1, 5⟩] .absent 7 8 false false = .ok out ∧
      out.watermark = 0) ∧
    main "s" [⟨"s/a", 1, 5⟩] .malformed 7 8 false false = .error .metadataError ∧
    main "s" [⟨"s/a", 1, 5⟩] (.present .emptyObj) 7 8 false false = .error .metadataError :=
  load_sidecar_absent_ok_malformed_fatal "s" [⟨"s/a", 1, 5⟩] 7 8 false false .emptyObj (by rfl)

/-! ## History-chain depth across runs -/

theorem runSequence_withHistory_depth (rest : List (Nat × Nat)) :
    ∀ (s e : Nat) (m : MetaData),
      historyDepth (runSequence (.withHistory s e m) rest) =
        if rest.length = 0 then 1 + historyDepth m else 2 := by
  induction rest with
  | nil => intro s e m; simp [runSequence, historyDepth]
  | cons r rest ih =>
    intro s e m
    rcases r with ⟨s2, e2⟩
    have step : runSequence (MetaData.withHistory s e m) ((s2, e2) :: rest) =
        runSequence (.withHistory s2 e2 (.noHistory s e)) rest := rfl
    rw [step, ih s2 e2 (.noHistory s e)]
    cases rest with
    | nil => simp [historyDepth]
    | cons _ _ => simp

/-- C7 as stated is false: run 1's metadata does not survive to the sidecar
written by run 3, because every save first executes
`delete metadata.lastMetaData` (index.js:227) and only then nests the
stripped object. After three runs (timestamps (1,2), (3,4), (5,6)) the
sidecar holds two nested run records, not three. -/
theorem history_chain_counterexample :
    runSequence MetaData.emptyObj [(1, 2), (3, 4), (5, 6)]
        = MetaData.withHistory 5 6 (.noHistory 3 4) ∧
    historyDepth (runSequence MetaData.emptyObj [(1, 2), (3, 4), (5, 6)]) ≠ 3 := by
  exact ⟨rfl, by decide⟩

/-- C7 amended: each save nests the previous metadata under `lastMetaData`
only after deleting that object's own `lastMetaData` field, so the persisted
history chain is pruned to at most one prior run: after n runs from a fresh
source the sidecar holds min n 2 run records, never more. -/
theorem history_chain_pruned (runs : List (Nat × Nat)) :
    historyDepth (runSequence MetaData.emptyObj runs) = min runs.length 2 := by
  cases runs with
  | nil => simp [runSequence, historyDepth]
  | cons r rest =>
    rcases r with ⟨s, e⟩
    have step : runSequence MetaData.emptyObj ((s, e) :: rest) =
        runSequence (.withHistory s e .emptyObj) rest := rfl
    rw [step, runSequence_withHistory_depth rest s e .emptyObj]
    cases rest with
    | nil => simp [historyDepth]
    | cons _ t => simp [List.length_cons]

/-! ## Print-only mode -/

/-- C8 as stated is false: a print-only run over one eligible data file emits
two per-file "will upload" lines, not one, because the sidecar task submitted
at index.js:242-245 also reaches the logging of index.js:190-192 (only the
`storageBucket.upload` call and the metadata write are gated on the flag).
The put count is 0 and nothing is written, as claimed. -/
theorem print_mode_counterexample :
    (main "s" [⟨"s/a", 1, 5⟩] .absent 10 11 true false).map
        (fun o => (o.uploadLogLines, o.objectStorePuts, o.writtenMetadata))
      = .ok (2, 0, none) ∧ (2 : Nat) ≠ 1 := by
  exact ⟨rfl, by decide⟩

/-- C8 amended: a non-quiet print-only run with N eligible data files emits
N + 1 per-file "will upload" log lines (one per eligible file plus one for
the sidecar task), makes zero ObjectStore put calls, and leaves the sidecar
on disk unchanged (the metadata write is skipped entirely). -/
theorem print_mode_effects (source : String) (files : List FileRec)
    (sc : SidecarState) (t e : Nat) (md : MetaData)
    (hload : loadMetadata sc = .ok md) :
    ∃ out, main source files sc t e true false = .ok out ∧
      out.uploadLogLines =
        (files.filter (eligibleB (metadataFilePathOf source)
          (lastUploadTimeMs md))).length + 1 ∧
      out.objectStorePuts = 0 ∧
      out.writtenMetadata = none := by
  refine ⟨_, main_eq_ok source files sc t e true false md hload, ?_, rfl, rfl⟩
  simp [scanFold_tasks_eq]

/-- Witness for C8 (amended) at a concrete input: three eligible files give
four log lines, zero puts, no write. -/
theorem print_mode_effects_witness :
    ∃ out, main "s" [⟨"s/a", 1, 5⟩, ⟨"s/b", 2, 6⟩, ⟨"s/c", 3, 7⟩] .absent 10 11
        true false = .ok out ∧
      out.uploadLogLines =
        ([⟨"s/a", 1, 5⟩, ⟨"s/b", 2, 6⟩, ⟨"s/c", 3, 7⟩].filter
          (eligibleB (metadataFilePathOf "s") (lastUploadTimeMs .emptyObj))).length + 1 ∧
      out.objectStorePuts = 0 ∧
      out.writtenMetadata = none :=
  print_mode_effects "s" [⟨"s/a", 1, 5⟩, ⟨"s/b", 2, 6⟩, ⟨"s/c", 3, 7⟩] .absent 10 11
    .emptyObj (by rfl)

/-! ## Second-run behaviour -/

/-- C9 as stated is false: a file whose last modification happened at the
very instant run 1 started (mtimeMs = 100 = run 1's start) is uploaded by
run 1 and, with no filesystem change between the runs, uploaded again by
run 2, because the filter keeps files with mtimeMs ≥ watermark and run 2's
watermark is run 1's start time. The first conjunct shows run 1 really
persisted that watermark; the second shows run 2 submits one data-file task,
not zero. -/
theorem second_run_counterexample :
    (main "s" [⟨"s/a", 1, 100⟩] .absent 100 101 false false).map
        (fun o => o.writtenMetadata)
      = .ok (some (.withHistory 100 101 .emptyObj)) ∧
    dataTasksOf (main "s" [⟨"s/a", 1, 100⟩]
        (.present (.withHistory 100 101 .emptyObj)) 200 201 false false)
      = [⟨"s/a", 1⟩] ∧
    ([⟨"s/a", 1⟩] : List UploadTask) ≠ [] := by
  refine ⟨rfl, rfl, by decide⟩

/-- C9 amended: if a non-print run completes and persists its metadata, and
every file's modification time is strictly before that run's start time (no
change during or after run 1), then a second run over the unchanged tree
submits no data-file task at all — its only upload is the refreshed sidecar. -/
theorem second_run_only_sidecar (source : String) (files : List FileRec)
    (sc : SidecarState) (t1 e1 t2 e2 : Nat) (q q2 : Bool) (out1 : RunOutput)
    (m1 : MetaData)
    (h1 : main source files sc t1 e1 false q = .ok out1)
    (h2 : out1.writtenMetadata = some m1)
    (hmt : ∀ f ∈ files, f.mtimeMs < t1) :
    ∃ out2, main source files (.present m1) t2 e2 false q2 = .ok out2 ∧
      out2.tasks = [⟨metadataFilePathOf source,
        metadataFileContentsLength (nextMeta m1 t2 e2)⟩] := by
  cases hl : loadMetadata sc with
  | error err =>
    rw [show main source files sc t1 e1 false q = .error err from by
      simp [main, hl]] at h1
    cases h1
  | ok md =>
    rw [main_eq_ok source files sc t1 e1 false q md hl] at h1
    injection h1 with h1
    rw [← h1] at h2
    simp only [Bool.false_eq_true, if_false, Option.some.injEq] at h2
    subst h2
    have hload2 : loadMetadata (.present (nextMeta md t1 e1)) = .ok (nextMeta md t1 e1) := by
      simp [loadMetadata, nextMeta, uploadStartTimeOf]
    refine ⟨_, main_eq_ok source files _ t2 e2 false q2 _ hload2, ?_⟩
    have hwm : lastUploadTimeMs (nextMeta md t1 e1) = t1 := rfl
    have hnone :
        (scanFold (metadataFilePathOf source)
          (lastUploadTimeMs (nextMeta md t1 e1)) files).tasks = [] := by
      rw [scanFold_tasks_eq, hwm]
      have hfilter : files.filter (eligibleB (metadataFilePathOf source) t1) = [] := by
        apply List.filter_eq_nil_iff.mpr
        intro f hf
        simp [eligibleB, Nat.not_le.mpr (hmt f hf)]
      rw [hfilter]
      rfl
    rw [hnone]
    rfl

/-- Witness for C9 (amended): one file last modified at time 50, run 1
starting at 100; the second run's only task is the sidecar. -/
theorem second_run_only_sidecar_witness :
    ∃ out2, main "s" [⟨"s/a", 1, 50⟩]
        (.present (.withHistory 100 101 .emptyObj)) 200 201 false false = .ok out2 ∧
      out2.tasks = [⟨metadataFilePathOf "s",
        metadataFileContentsLength (nextMeta (.withHistory 100 101 .emptyObj) 200 201)⟩] :=
  second_run_only_sidecar "s" [⟨"s/a", 1, 50⟩] .absent 100 101 200 201 false false
    { tasks := [⟨"s/a", 1⟩, ⟨metadataFilePathOf "s",
        metadataFileContentsLength (nextMeta .emptyObj 100 101)⟩]
      totalFiles := 2
      totalSize := 1 + metadataFileContentsLength (nextMeta .emptyObj 100 101)
      uploadLogLines := 2
      objectStorePuts := 2
      writtenMetadata := some (nextMeta .emptyObj 100 101)
      watermark := 0 }
    (.withHistory 100 101 .emptyObj) (by rfl) (by rfl) (by decide)

/-! ## Sidecar exclusion is by full-path equality -/

/-- C10: the skip test of index.js:199 compares the walked file's full path
with `<source>/.backup-folder.json`, so a file named `.backup-folder.json`
inside any subdirectory of the source is an ordinary candidate: its path
differs from the sidecar path, and scanning it submits a task exactly when it
passes the watermark filter. -/
theorem nested_sidecar_name_not_excluded (source d : String) (wm : Nat)
    (f : FileRec)
    (hpath : f.path = pathJoin (pathJoin source d) ".backup-folder.json") :
    f.path ≠ metadataFilePathOf source ∧
    (scanFold (metadataFilePathOf source) wm [f]).tasks =
      (if wm ≤ f.mtimeMs then [mkTask f] else []) := by
  have hne : f.path ≠ metadataFilePathOf source := by
    rw [hpath]
    intro hcontra
    have hlen := congrArg String.length hcontra
    have hs : ("/" : String).length = 1 := rfl
    simp only [pathJoin, metadataFilePathOf, String.length_append, hs] at hlen
    omega
  refine ⟨hne, ?_⟩
  by_cases hm : wm ≤ f.mtimeMs
  · simp [scanFold, scanStep, hne, hm]
  · simp [scanFold, scanStep, hne, hm]

/-- Witness for C10: `s/sub/.backup-folder.json` is not the sidecar path
`s/.backup-folder.json`, and with watermark 0 it is submitted. -/
theorem nested_sidecar_name_not_excluded_witness :
    ("s/sub/.backup-folder.json" : String) ≠ metadataFilePathOf "s" ∧
    (scanFold (metadataFilePathOf "s") 0 [⟨"s/sub/.backup-folder.json", 5, 10⟩]).tasks =
      (if (0 : Nat) ≤ (10 : Nat) then [mkTask ⟨"s/sub/.backup-folder.json", 5, 10⟩] else []) :=
  nested_sidecar_name_not_excluded "s" "sub" 0 ⟨"s/sub/.backup-folder.json", 5, 10⟩ (by rfl)

/-! ## Retry wrapper -/

theorem withRetriesGo_ok {ε α : Type} (f : Nat → Except ε α) (idx r : Nat)
    (last : Option ε) (a : α) (h : f idx = .ok a) :
    withRetriesGo f idx (r + 1) last = ⟨.ok a, 1, []⟩ := by
  simp [withRetriesGo, h]

theorem withRetriesGo_err {ε α : Type} (f : Nat → Except ε α) (idx r : Nat)
    (last : Option ε) (e : ε) (h : f idx = .error e) :
    withRetriesGo f idx (r + 1) last =
      ⟨(withRetriesGo f (idx + 1) r (some e)).result,
        (withRetriesGo f (idx + 1) r (some e)).calls + 1,
        e :: (withRetriesGo f (idx + 1) r (some e)).logged⟩ := by
  simp [withRetriesGo, h]

theorem withRetriesGo_calls_le {ε α : Type} (f : Nat → Except ε α) :
    ∀ (r idx : Nat) (last : Option ε), (withRetriesGo f idx r last).calls ≤ r := by
  intro r
  induction r with
  | zero => intro idx last; simp [withRetriesGo]
  | succ n ih =>
    intro idx last
    cases h : f idx with
    | ok a => rw [withRetriesGo_ok f idx n last a h]; exact Nat.le_add_left 1 n
    | error e =>
      rw [withRetriesGo_err f idx n last e h]
      exact Nat.succ_le_succ (ih (idx + 1) (some e))

/-- C3: with the default budget of 3, `withRetries` invokes the wrapped
operation at most 3 times; if the operation fails k < 3 times (with errors
`es 0 .. es (k-1)`) and then succeeds with `a`, it returns that success after
exactly k + 1 invocations, having logged each of the k failures in order; if
it fails 3 times it makes exactly 3 invocations — never a 4th — logs all
three errors and re-raises the last one (`es 2`). -/
theorem withRetries_retry_bound {ε α : Type} (f : Nat → Except ε α)
    (es : Nat → ε) (a : α) :
    (withRetries f 3).calls ≤ 3 ∧
    (∀ k, k < 3 → (∀ i, i < k → f i = .error (es i)) → f k = .ok a →
      (withRetries f 3).result = .ok a ∧ (withRetries f 3).calls = k + 1 ∧
      (withRetries f 3).logged = (List.range k).map es) ∧
    ((∀ i, i < 3 → f i = .error (es i)) →
      (withRetries f 3).result = .error (some (es 2)) ∧
      (withRetries f 3).calls = 3 ∧
      (withRetries f 3).logged = [es 0, es 1, es 2]) := by
  have h3 : (3 : Nat) = 2 + 1 := rfl
  have h2 : (2 : Nat) = 1 + 1 := rfl
  refine ⟨withRetriesGo_calls_le f 3 0 none, ?_, ?_⟩
  · intro k hk hfail hok
    interval_cases k
    · rw [withRetries, h3, withRetriesGo_ok f 0 2 none a hok]
      simp
    · have h0 := hfail 0 (by omega)
      rw [withRetries, h3, withRetriesGo_err f 0 2 none _ h0, h2,
        withRetriesGo_ok f 1 1 (some (es 0)) a hok]
      simp [List.range_succ]
    · have h0 := hfail 0 (by omega)
      have h1 := hfail 1 (by omega)
      rw [withRetries, h3, withRetriesGo_err f 0 2 none _ h0, h2,
        withRetriesGo_err f 1 1 (some (es 0)) _ h1,
        withRetriesGo_ok f 2 0 (some (es 1)) a hok]
      simp [List.range_succ]
  · intro hfail
    have h0 := hfail 0 (by omega)
    have h1 := hfail 1 (by omega)
    have hlast := hfail 2 (by omega)
    rw [withRetries, h3, withRetriesGo_err f 0 2 none _ h0, h2,
      withRetriesGo_err f 1 1 (some (es 0)) _ h1,
      withRetriesGo_err f 2 0 (some (es 1)) _ hlast]
    simp [withRetriesGo]

/-- Witness for C3: an operation failing twice then succeeding returns the
success after exactly 3 invocations and logs both failures. -/
theorem withRetries_retry_bound_witness :
    (withRetries (fun n => if n < 2 then Except.error "boom" else Except.ok 42) 3).result
      = Except.ok 42 ∧
    (withRetries (fun n => if n < 2 then Except.error "boom" else Except.ok 42) 3).calls
      = 3 ∧
    (withRetries (fun n => if n < 2 then Except.error "boom" else Except.ok 42) 3).logged
      = ["boom", "boom"] := by
  have h := (withRetries_retry_bound
      (fun n => if n < 2 then Except.error "boom" else Except.ok 42)
      (fun _ => "boom") 42).2.1 2 (by omega)
      (fun i hi => by
        have : i < 2 := hi
        simp [this])
      (by simp)
  refine ⟨h.1, h.2.1, ?_⟩
  rw [h.2.2]
  rfl

/-! ## Drain and abort semantics -/

theorem drainGo_fst (outcomes : List (Option String)) :
    (drainGo outcomes).1 = outcomes.length := by
  induction outcomes with
  | nil => rfl
  | cons o rest ih => simp [drainGo, ih]

theorem drainGo_snd_isSome (e : String) (outcomes : List (Option String)) :
    some e ∈ outcomes → (drainGo outcomes).2.isSome = true := by
  induction outcomes with
  | nil => intro h; cases h
  | cons o rest ih =>
    intro h
    cases o with
    | some x => simp [drainGo]
    | none =>
      rcases List.mem_cons.mp h with hx | hx
      · cases hx
      · simpa [drainGo] using ih hx

/-- C4: if any submitted upload task permanently fails (some outcome carries
an error after its retry budget), the drain surfaces the error and the
process exits non-zero via `main().catch` (index.js:257-262) — but only after
every submitted task has run to completion: the drain's completion count
equals the number of submitted tasks, so there is no partial-success terminal
state and no preemptive abort of in-flight work. -/
theorem drain_failure_aborts_after_completion (outcomes : List (Option String))
    (e : String) (hmem : some e ∈ outcomes) :
    (drainGo outcomes).1 = outcomes.length ∧ drainExitCode outcomes = 1 := by
  refine ⟨drainGo_fst outcomes, ?_⟩
  have h := drainGo_snd_isSome e outcomes hmem
  unfold drainExitCode
  cases hd : (drainGo outcomes).2 with
  | none => rw [hd] at h; cases h
  | some x => rfl

/-- Witness for C4: three tasks, the middle one permanently failed; all three
completed and the run exits 1. -/
theorem drain_failure_aborts_after_completion_witness :
    (drainGo [none, some "upload failed", none]).1
      = ([none, some "upload failed", none] : List (Option String)).length ∧
    drainExitCode [none, some "upload failed", none] = 1 :=
  drain_failure_aborts_after_completion [none, some "upload failed", none]
    "upload failed" (by decide)

end BackupFolder
